import Mathlib

/-!
Shallow embedding of the working-context subsystem of the repository:
the entry store (storage, `src/unnamed/part_000`), the manager
(`WorkingContextManager` in `capture.ts`/manager part), the selector and
formatter (`injection.ts`), and the capture handler (`capture.ts`).

Conventions of the embedding:
* JavaScript millisecond timestamps are `Int` (a `Date.now()` value is an
  external input and is passed explicitly as a `now` argument).
* `randomUUID()` is an external input and is passed explicitly as an id
  argument; freshness is a hypothesis where a theorem needs it.
* SQLite rows are modelled as a list of `Row` (entry plus its `rowid`) kept
  in insertion order; `nextRowid` models SQLite rowid allocation, which
  always hands out a rowid larger than every live rowid.
* `JSON.stringify` followed by `JSON.parse` on a string-to-string record is
  the identity, so the `metadata` column round-trip is modelled as identity
  on `Option (List (String × String))`.
* `ORDER BY created_at DESC` in `enforceMaxEntries` carries no explicit
  tie-break; SQLite satisfies it by a backward scan of the
  `idx_entries_created_at` index, whose entries are `(created_at, rowid)`
  pairs, so ties are returned in descending rowid order.  The embedding
  makes that deterministic refinement explicit (`createdLE`).
-/

namespace WorkingContext

/-- One stored context entry (`ContextEntry` in `types.ts`).  `sessionType`
is kept as a `String` exactly as the database stores it (a TEXT column);
validity is enforced at the `add` boundary. -/
structure ContextEntry where
  id : String
  sessionKey : String
  sessionType : String
  summary : String
  taskId : Option String
  pinned : Bool
  createdAt : Int
  expiresAt : Int
  metadata : Option (List (String × String))
  deriving DecidableEq, Repr

/-- Raw input to `add` (`CreateEntryInput` in `types.ts`), before
validation by `CreateEntrySchema`. -/
structure CreateEntryInput where
  sessionKey : String
  sessionType : String
  summary : String
  taskId : Option String
  metadata : Option (List (String × String))
  deriving DecidableEq, Repr

/-- The closed session type enumeration (`SESSION_TYPES` in `types.ts`). -/
def SESSION_TYPES : List String := ["dm", "webhook", "cron", "group"]

/-- `CreateEntrySchema.parse` succeeds exactly on these inputs:
`sessionKey` of length at least 1, `sessionType` in the enumeration,
`summary` of length at least 1; `taskId` and `metadata` are optional and
unconstrained. -/
def validateCreateEntry (input : CreateEntryInput) : Bool :=
  decide (1 ≤ input.sessionKey.length) &&
    SESSION_TYPES.contains input.sessionType &&
    decide (1 ≤ input.summary.length)

/-- A database row: an entry together with its SQLite rowid. -/
structure Row where
  rowid : Nat
  entry : ContextEntry
  deriving DecidableEq, Repr

/-- The `context_entries` table.  `rows` is in insertion order (ascending
rowid); `nextRowid` is the rowid the next insert will receive. -/
structure Store where
  nextRowid : Nat
  rows : List Row
  deriving DecidableEq, Repr

/-- The empty store (freshly created database). -/
def Store.empty : Store := { nextRowid := 0, rows := [] }

/-- The entry materialized by `WorkingContextStorage.insert`. -/
def mkContextEntry (input : CreateEntryInput) (ttlMinutes : Nat) (now : Int)
    (newId : String) : ContextEntry :=
  { id := newId
    sessionKey := input.sessionKey
    sessionType := input.sessionType
    summary := input.summary
    taskId := input.taskId
    pinned := false
    createdAt := now
    expiresAt := now + (ttlMinutes : Int) * 60 * 1000
    metadata := input.metadata }

/-- `WorkingContextStorage.insert`: persist a new row, return the
materialized entry. -/
def Store.insert (s : Store) (input : CreateEntryInput) (ttlMinutes : Nat)
    (now : Int) (newId : String) : Store × ContextEntry :=
  let e := mkContextEntry input ttlMinutes now newId
  ({ nextRowid := s.nextRowid + 1, rows := s.rows ++ [⟨s.nextRowid, e⟩] }, e)

/-- `WorkingContextStorage.getById`: `SELECT * FROM context_entries WHERE
id = ?`, first row or null. -/
def Store.getById (s : Store) (id : String) : Option ContextEntry :=
  (s.rows.find? (fun r => r.entry.id == id)).map Row.entry

/-- Numeric value of the `pinned` column (SQLite stores booleans as 0/1,
and `ORDER BY pinned DESC` orders by that number). -/
def pinnedRank (e : ContextEntry) : Nat := if e.pinned then 1 else 0

/-- Row order of `getRecent`'s `ORDER BY pinned DESC, created_at DESC,
rowid DESC`: `rowLE a b` holds when `a` sorts at or before `b`. -/
def rowLE (a b : Row) : Prop :=
  pinnedRank b.entry < pinnedRank a.entry ∨
    (pinnedRank b.entry = pinnedRank a.entry ∧
      (b.entry.createdAt < a.entry.createdAt ∨
        (b.entry.createdAt = a.entry.createdAt ∧ b.rowid ≤ a.rowid)))

instance : DecidableRel rowLE := fun a b => by
  unfold rowLE; infer_instance

instance : IsTotal Row rowLE := ⟨by intro a b; unfold rowLE; omega⟩

instance : IsTrans Row rowLE := ⟨by intro a b c; unfold rowLE; omega⟩

/-- Row order of `enforceMaxEntries`' `ORDER BY created_at DESC` (rowid
tie-break from the index scan, see the file comment). -/
def createdLE (a b : Row) : Prop :=
  b.entry.createdAt < a.entry.createdAt ∨
    (b.entry.createdAt = a.entry.createdAt ∧ b.rowid ≤ a.rowid)

instance : DecidableRel createdLE := fun a b => by
  unfold createdLE; infer_instance

instance : IsTotal Row createdLE := ⟨by intro a b; unfold createdLE; omega⟩

instance : IsTrans Row createdLE := ⟨by intro a b c; unfold createdLE; omega⟩

/-- Filter options of `WorkingContextStorage.getRecent`. -/
structure GetRecentOptions where
  limit : Option Nat := none
  maxAgeMs : Option Int := none
  sessionType : Option String := none
  taskId : Option String := none

/-- The WHERE clause built by `getRecent`: the conjunction of the pushed
conditions `(expires_at > ? OR pinned = 1)`, optionally
`(created_at > ? OR pinned = 1)` with parameter `now - maxAgeMs`,
optionally `session_type = ?`, optionally `task_id = ?` (a NULL `task_id`
never matches the equality). -/
def rowMatches (now : Int) (o : GetRecentOptions) (e : ContextEntry) : Bool :=
  (decide (now < e.expiresAt) || e.pinned) &&
    (match o.maxAgeMs with
      | none => true
      | some m => decide (now - m < e.createdAt) || e.pinned) &&
    (match o.sessionType with
      | none => true
      | some st => e.sessionType == st) &&
    (match o.taskId with
      | none => true
      | some t => e.taskId == some t)

/-- `WorkingContextStorage.getRecent`: filter, order by
`pinned DESC, created_at DESC, rowid DESC`, truncate to `limit`
(default 100). -/
def Store.getRecent (s : Store) (o : GetRecentOptions) (now : Int) :
    List ContextEntry :=
  (((s.rows.filter (fun r => rowMatches now o r.entry)).insertionSort
      rowLE).take (o.limit.getD 100)).map Row.entry

/-- `WorkingContextStorage.delete`: `DELETE ... WHERE id = ?`, returns
whether any row was removed. -/
def Store.delete (s : Store) (id : String) : Store × Bool :=
  let remaining := s.rows.filter (fun r => !(r.entry.id == id))
  ({ s with rows := remaining }, decide (remaining.length < s.rows.length))

/-- `WorkingContextStorage.deleteByTaskId`: `DELETE ... WHERE task_id = ?`,
returns the number of rows removed. -/
def Store.deleteByTaskId (s : Store) (taskId : String) : Store × Nat :=
  let remaining := s.rows.filter (fun r => !(r.entry.taskId == some taskId))
  ({ s with rows := remaining }, s.rows.length - remaining.length)

/-- `WorkingContextStorage.pruneExpired`: `DELETE ... WHERE expires_at <= ?
AND pinned = 0`, returns the number of rows removed. -/
def Store.pruneExpired (s : Store) (now : Int) : Store × Nat :=
  let remaining :=
    s.rows.filter (fun r => !(decide (r.entry.expiresAt ≤ now) && !r.entry.pinned))
  ({ s with rows := remaining }, s.rows.length - remaining.length)

/-- `WorkingContextStorage.enforceMaxEntries`: delete the rows whose id is
selected by `SELECT id FROM context_entries WHERE pinned = 0 ORDER BY
created_at DESC LIMIT -1 OFFSET maxEntries`, returns the number of rows
removed. -/
def Store.enforceMaxEntries (s : Store) (maxEntries : Nat) : Store × Nat :=
  let victims :=
    ((s.rows.filter (fun r => !r.entry.pinned)).insertionSort createdLE).drop
      maxEntries
  let victimIds := victims.map (fun r => r.entry.id)
  let remaining := s.rows.filter (fun r => !victimIds.contains r.entry.id)
  ({ s with rows := remaining }, s.rows.length - remaining.length)

/-- `WorkingContextStorage.count`: `SELECT COUNT(*)`. -/
def Store.count (s : Store) : Nat := s.rows.length

/-- Manager configuration (`ManagerConfigSchema` requires a positive
integer `maxEntries`, default 20, and a non-negative integer
`defaultTtlMinutes`, default 120; `dbPath` plays no role in the
embedding). -/
structure ManagerConfig where
  maxEntries : Nat
  defaultTtlMinutes : Nat
  deriving DecidableEq, Repr

/-- `WorkingContextManager.add`: validate with `CreateEntrySchema.parse`
(which throws before anything touches the store), then `pruneExpired`,
`insert` with the configured TTL, `enforceMaxEntries` with the configured
cap, and return the inserted entry. -/
def managerAdd (cfg : ManagerConfig) (s : Store) (input : CreateEntryInput)
    (now : Int) (newId : String) : Except String (Store × ContextEntry) :=
  if validateCreateEntry input then
    let s1 := (s.pruneExpired now).1
    let inserted := s1.insert input cfg.defaultTtlMinutes now newId
    let s3 := (inserted.1.enforceMaxEntries cfg.maxEntries).1
    .ok (s3, inserted.2)
  else
    .error "CreateEntrySchema validation failed"

/-- The store state after a call to `add`: unchanged when validation
throws (the exception propagates before any store operation runs). -/
def managerAddState (cfg : ManagerConfig) (s : Store)
    (input : CreateEntryInput) (now : Int) (newId : String) : Store :=
  match managerAdd cfg s input now newId with
  | .ok (s3, _) => s3
  | .error _ => s

/-- `estimateTokens` (`manager` and `injection.ts`):
`Math.ceil(text.length / 4)`. -/
def estimateTokens (text : String) : Nat := (text.length + 3) / 4

/-- Loop body of `truncateToTokenBudget`: `tokensUsed` is the running
total, `started` records whether `result` is non-empty (the loop pushes on
every iteration it does not break, so `result.length > 0` is exactly
"some earlier iteration ran"). -/
def truncGo (maxTokens : Int) : Int → Bool → List ContextEntry →
    List ContextEntry
  | _, _, [] => []
  | tokensUsed, started, e :: rest =>
    let t : Int := estimateTokens e.summary
    if decide (maxTokens < tokensUsed + t) && started then []
    else e :: truncGo maxTokens (tokensUsed + t) true rest

/-- `truncateToTokenBudget` in the manager source. -/
def truncateToTokenBudget (entries : List ContextEntry) (maxTokens : Int) :
    List ContextEntry :=
  truncGo maxTokens 0 false entries

/-- Options of `WorkingContextManager.getRecent` (`GetRecentOptions` in
`types.ts`; `maxAge` is in minutes). -/
structure ManagerGetRecentOptions where
  maxTokens : Option Int := none
  maxAge : Option Int := none
  sessionType : Option String := none
  taskId : Option String := none

/-- `WorkingContextManager.getRecent`: delegate to the store with
`limit := config.maxEntries` and `maxAgeMs := maxAge * 60000` when given,
then apply the token budget when `maxTokens` is given. -/
def managerGetRecent (cfg : ManagerConfig) (s : Store)
    (opts : ManagerGetRecentOptions) (now : Int) : List ContextEntry :=
  let entries := s.getRecent
    { limit := some cfg.maxEntries
      maxAgeMs := opts.maxAge.map (fun m => m * 60 * 1000)
      sessionType := opts.sessionType
      taskId := opts.taskId } now
  match opts.maxTokens with
  | some mt => truncateToTokenBudget entries mt
  | none => entries

/-- `WorkingContextManager.clear`: fetch up to 10,000 recent entries from
the store and delete each by id.  The source method has return type
`void`; the second component models the value it reports to its caller:
a count-returning implementation would yield `some n`, the actual code
yields nothing, i.e. `none`. -/
def managerClear (s : Store) (now : Int) : Store × Option Nat :=
  let entries := s.getRecent { limit := some 10000 } now
  (entries.foldl (fun acc e => (acc.delete e.id).1) s, none)

/-! ### Selector/formatter (`injection.ts`) -/

/-- `SESSION_TYPE_LABELS` in `injection.ts`.  The source record is defined
on the four `SessionType` values; the lookup is total here with a default
that no valid entry reaches. -/
def SESSION_TYPE_LABELS : List (String × String) :=
  [("dm", "DM"), ("webhook", "Webhook"), ("cron", "Cron"), ("group", "Group")]

/-- Label lookup `SESSION_TYPE_LABELS[entry.sessionType]`. -/
def sessionTypeLabel (t : String) : String :=
  (SESSION_TYPE_LABELS.lookup t).getD ""

/-- `formatRelativeTime` in `injection.ts`.  `Math.floor` of a quotient of
an integer by a positive literal is `Int` division (`Int./` rounds toward
negative infinity). -/
def formatRelativeTime (timestampMs nowMs : Int) : String :=
  let diffMs := nowMs - timestampMs
  let diffMinutes := diffMs / 60000
  if diffMinutes < 1 then "just now"
  else if diffMinutes < 60 then toString diffMinutes ++ "m ago"
  else
    let diffHours := diffMinutes / 60
    if diffHours < 24 then toString diffHours ++ "h ago"
    else toString (diffHours / 24) ++ "d ago"

/-- `formatEntry` in `injection.ts`: one rendered line.  A JavaScript
template conditions the task annotation on `entry.taskId` being truthy, so
an empty-string task id renders nothing. -/
def formatEntry (e : ContextEntry) (nowMs : Int) : String :=
  let time := formatRelativeTime e.createdAt nowMs
  let label := sessionTypeLabel e.sessionType
  let pin := if e.pinned then " [pinned]" else ""
  let task := match e.taskId with
    | some t => if t = "" then "" else " (task: " ++ t ++ ")"
    | none => ""
  "- [" ++ time ++ ", " ++ label ++ pin ++ "]" ++ task ++ " " ++ e.summary

/-- The fixed header line of `formatForSystemPrompt`. -/
def WORKING_CONTEXT_HEADER : String := "## Working Context (recent activity)\n"

/-- The literal truncation marker line of `formatForSystemPrompt`. -/
def TRUNCATION_MARKER : String := "- ... (older entries truncated)"

/-- The rendering loop of `formatForSystemPrompt`: returns the rendered
entry lines and whether the truncation marker was appended.  The source
pushes the marker into the same `lines` array and breaks; keeping the
marker as a flag is the same output once the marker is appended after the
entry lines. -/
def formatLoop (nowMs : Int) : List ContextEntry → Int → List String × Bool
  | [], _ => ([], false)
  | e :: rest, budget =>
    let line := formatEntry e nowMs
    let lineTokens : Int := estimateTokens line
    if budget - lineTokens < 0 then ([], true)
    else
      let tail := formatLoop nowMs rest (budget - lineTokens)
      (line :: tail.1, tail.2)

/-- `FormatOptions` in `injection.ts`. -/
structure FormatOptions where
  maxTokens : Option Int := none
  now : Option Int := none

/-- `formatForSystemPrompt`: empty list renders the empty string;
otherwise the header plus the budget-limited lines, joined by newlines.
`clockNow` stands for the ambient `Date.now()` used when `options.now` is
absent. -/
def formatForSystemPrompt (entries : List ContextEntry)
    (options : FormatOptions) (clockNow : Int) : String :=
  if entries.isEmpty then ""
  else
    let nowMs := options.now.getD clockNow
    let maxTokens := options.maxTokens.getD 2000
    let budget := maxTokens - (estimateTokens WORKING_CONTEXT_HEADER : Int)
    let rendered := formatLoop nowMs entries budget
    let lines := rendered.1 ++ (if rendered.2 then [TRUNCATION_MARKER] else [])
    WORKING_CONTEXT_HEADER ++ String.intercalate "\n" lines

/-! ### Capture handler (`capture.ts`)

JavaScript string primitives (`split`, `trim`, `slice`) are modelled by
structural recursion on the character list so that every definition
evaluates inside the kernel; the semantics match the JavaScript methods
(split keeps empty segments, `"".split(sep)` is `[""]`). -/

/-- `text.split(sep)` on the character list: every occurrence of `sep`
ends a segment, empty segments included. -/
def splitOnChar (sep : Char) : List Char → List (List Char)
  | [] => [[]]
  | c :: rest =>
    if c = sep then [] :: splitOnChar sep rest
    else
      match splitOnChar sep rest with
      | h :: t => (c :: h) :: t
      | [] => [[c]]

/-- `sessionKey.split(":")`. -/
def jsSplit (sep : Char) (s : String) : List String :=
  (splitOnChar sep s.data).map String.mk

/-- `text.trim()`: strip whitespace from both ends. -/
def jsTrim (s : String) : String :=
  String.mk
    (((s.data.dropWhile Char.isWhitespace).reverse.dropWhile
      Char.isWhitespace).reverse)

/-- `text.slice(0, n)`. -/
def jsTake (s : String) (n : Nat) : String := String.mk (s.data.take n)

/-- `mapSessionType` in `capture.ts`: derive the session type from the
colon-delimited session key. -/
def mapSessionType (sessionKey : String) : String :=
  let parts := jsSplit ':' sessionKey
  if parts.get? 0 = some "cron" then "cron"
  else if parts.get? 0 = some "hook" then "webhook"
  else if 4 ≤ parts.length ∧ parts.get? 2 = some "telegram" ∧
      parts.get? 3 = some "group" then "group"
  else if 4 ≤ parts.length ∧ parts.get? 2 = some "discord" ∧
      parts.get? 3 = some "group" then "group"
  else if 4 ≤ parts.length ∧ parts.get? 2 = some "signal" ∧
      parts.get? 3 = some "group" then "group"
  else "dm"

/-- The fields of `AgentEventPayload` the handler reads: `data.text` is
present exactly when `typeof evt.data?.text === "string"`, and `data.phase`
exactly when `typeof evt.data?.phase === "string"`. -/
structure AgentEventPayload where
  sessionKey : Option String
  runId : String
  stream : String
  dataText : Option String
  dataPhase : Option String
  deriving DecidableEq, Repr

/-- `Map.set`: update in place or append. -/
def mapSet (m : List (String × String)) (k v : String) :
    List (String × String) :=
  match m with
  | [] => [(k, v)]
  | (k1, v1) :: rest =>
    if k1 = k then (k, v) :: rest else (k1, v1) :: mapSet rest k v

/-- `Map.get`. -/
def mapGet (m : List (String × String)) (k : String) : Option String :=
  m.lookup k

/-- `Map.delete` (the returned boolean is unused by the handler). -/
def mapDelete (m : List (String × String)) (k : String) :
    List (String × String) :=
  m.filter (fun p => !(p.1 == k))

/-- The two module-level maps `runTextBuffers` and `runSessionKeys`. -/
structure CaptureState where
  runTextBuffers : List (String × String)
  runSessionKeys : List (String × String)
  deriving DecidableEq, Repr

/-- Delete both per-run map slots for a run id (the handler always deletes
the two together). -/
def clearRun (st : CaptureState) (runId : String) : CaptureState :=
  { runTextBuffers := mapDelete st.runTextBuffers runId
    runSessionKeys := mapDelete st.runSessionKeys runId }

/-- The summary built on the "end" phase from the buffered text:
`accumulatedText && accumulatedText.trim()` guards the non-fallback
branch, then text longer than 200 is cut to 197 plus an ellipsis. -/
def captureSummary (buffered : Option String) : String :=
  match buffered with
  | some txt =>
    if txt ≠ "" ∧ jsTrim txt ≠ "" then
      let text := jsTrim txt
      if 200 < text.length then jsTake text 197 ++ "..." else text
    else "Agent turn completed"
  | none => "Agent turn completed"

/-- One invocation of the listener returned by
`createWorkingContextCaptureHandler`, as a transition on the buffered
state emitting at most one `add` call.  `enabled` and `autoCapture` are
the resolved configuration flags; `getWorkingContextManager` returns a
manager whenever `enabled` holds, so the `!manager` early return is
unreachable past the flag check. -/
def captureStep (enabled autoCapture : Bool) (st : CaptureState)
    (evt : AgentEventPayload) : CaptureState × Option CreateEntryInput :=
  if evt.stream = "assistant" ∧ evt.dataText.isSome then
    match evt.sessionKey with
    | some sk =>
      if sk ≠ "" then
        ({ runTextBuffers := mapSet st.runTextBuffers evt.runId
              (evt.dataText.getD "")
           runSessionKeys := mapSet st.runSessionKeys evt.runId sk }, none)
      else (st, none)
    | none => (st, none)
  else
    let lifecyclePhase : Option String :=
      if evt.stream = "lifecycle" then evt.dataPhase else none
    if lifecyclePhase ≠ some "end" then
      if lifecyclePhase = some "error" then (clearRun st evt.runId, none)
      else (st, none)
    else
      let resolved : Option String :=
        match evt.sessionKey with
        | some sk => some sk
        | none => mapGet st.runSessionKeys evt.runId
      match resolved with
      | none => (clearRun st evt.runId, none)
      | some rsk =>
        if rsk = "" then (clearRun st evt.runId, none)
        else if enabled && autoCapture then
          (clearRun st evt.runId,
            some { sessionKey := rsk
                   sessionType := mapSessionType rsk
                   summary := captureSummary (mapGet st.runTextBuffers evt.runId)
                   taskId := none
                   metadata := none })
        else (clearRun st evt.runId, none)

/-! ### Claim-side specifications and derived notions -/

/-- Cumulative estimated token cost of a list of entries (the cost
`truncateToTokenBudget` charges per entry: its summary's tokens). -/
def summaryCost (l : List ContextEntry) : Int :=
  (l.map (fun e => (estimateTokens e.summary : Int))).sum

/-- Cumulative estimated token cost of the rendered lines of a list of
entries (the cost `formatForSystemPrompt` charges per entry). -/
def lineCost (nowMs : Int) (l : List ContextEntry) : Int :=
  (l.map (fun e => (estimateTokens (formatEntry e nowMs) : Int))).sum

/-- The selection rule of `getRecent` as the spec words it: not expired or
pinned; within `maxAgeMs` or pinned when `maxAgeMs` is given; session type
and task id match when given. -/
def includedSpec (now : Int) (o : GetRecentOptions) (e : ContextEntry) : Prop :=
  (now < e.expiresAt ∨ e.pinned = true) ∧
    (match o.maxAgeMs with
      | none => True
      | some m => now - m < e.createdAt ∨ e.pinned = true) ∧
    (match o.sessionType with
      | none => True
      | some st => e.sessionType = st) ∧
    (match o.taskId with
      | none => True
      | some t => e.taskId = some t)

/-- Boolean form of `includedSpec`. -/
def includedSpecB (now : Int) (o : GetRecentOptions) (e : ContextEntry) : Bool :=
  (decide (now < e.expiresAt) || e.pinned) &&
    (match o.maxAgeMs with
      | none => true
      | some m => decide (now - m < e.createdAt) || e.pinned) &&
    (match o.sessionType with
      | none => true
      | some st => decide (e.sessionType = st)) &&
    (match o.taskId with
      | none => true
      | some t => decide (e.taskId = some t))

instance (now : Int) (o : GetRecentOptions) (e : ContextEntry) :
    Decidable (includedSpec now o e) :=
  decidable_of_iff (includedSpecB now o e = true) (by
    unfold includedSpecB includedSpec
    rcases o with ⟨l, ma, st, t⟩
    rcases ma <;> rcases st <;> rcases t <;>
      simp [Bool.and_eq_true, Bool.or_eq_true, decide_eq_true_iff, and_assoc])

/-- The output order the spec describes at entry level: pinned entries
first, then by creation time descending. -/
def entryPriorityGE (a b : ContextEntry) : Prop :=
  pinnedRank b ≤ pinnedRank a ∧
    (pinnedRank a = pinnedRank b → b.createdAt ≤ a.createdAt)

/-- One `Manager.add` call of an add sequence: its input, the `Date.now()`
at the call, and the `randomUUID()` drawn for it. -/
structure AddStep where
  input : CreateEntryInput
  time : Int
  newId : String
  deriving DecidableEq, Repr

/-- Run a sequence of `add` calls against the manager. -/
def runAdds (cfg : ManagerConfig) (s : Store) (steps : List AddStep) : Store :=
  steps.foldl (fun acc st => managerAddState cfg acc st.input st.time st.newId) s

/-- The rows a sequence of successful adds materializes, starting at rowid
`i`: row `i + j` holds the entry built from step `j`. -/
def planRows (ttl : Nat) : Nat → List AddStep → List Row
  | _, [] => []
  | i, st :: rest =>
    ⟨i, mkContextEntry st.input ttl st.time st.newId⟩ :: planRows ttl (i + 1) rest

/-! ### Concrete instances used by witnesses and counterexamples -/

/-- A valid sample input (mirrors the integration test fixture). -/
def sampleInput : CreateEntryInput :=
  { sessionKey := "agent:main:main"
    sessionType := "dm"
    summary := "Started auth refactor task for ki-at-obv"
    taskId := some "auth-refactor"
    metadata := none }

/-- An invalid input: empty session key. -/
def badInput : CreateEntryInput :=
  { sessionKey := ""
    sessionType := "dm"
    summary := "something happened"
    taskId := none
    metadata := none }

/-- Entry builder for concrete stores. -/
def sampleEntry (id summary : String) (pinned : Bool)
    (createdAt expiresAt : Int) (taskId : Option String) : ContextEntry :=
  { id := id
    sessionKey := "agent:main:main"
    sessionType := "dm"
    summary := summary
    taskId := taskId
    pinned := pinned
    createdAt := createdAt
    expiresAt := expiresAt
    metadata := none }

/-- Default manager configuration (`maxEntries` 20, TTL 120 minutes). -/
def cfg20 : ManagerConfig := ⟨20, 120⟩

/-- Small-cap configuration for the cap witness. -/
def cfg2 : ManagerConfig := ⟨2, 120⟩

/-- A store holding one pinned, already-expired entry and one unpinned
entry (both "now" values used by witnesses are at least 500). -/
def pinnedStore : Store :=
  { nextRowid := 2
    rows := [⟨0, sampleEntry "p1" "pinned note" true 100 200 none⟩,
             ⟨1, sampleEntry "u1" "unpinned note" false 150 900000 none⟩] }

/-- The pinned row of `pinnedStore`. -/
def pinnedRow : Row := ⟨0, sampleEntry "p1" "pinned note" true 100 200 none⟩

/-- Three one-token entries (summaries of length at most 4). -/
def tinyEntries : List ContextEntry :=
  [sampleEntry "t1" "abc" false 30 1000 none,
   sampleEntry "t2" "defg" false 20 1000 none,
   sampleEntry "t3" "hij" false 10 1000 none]

/-- An entry whose summary alone costs 14 tokens (56 characters). -/
def longEntry : ContextEntry :=
  sampleEntry "long1"
    "a much longer summary text that costs quite a few token." false 0 1000 none

/-- A two-entry store, both live at time 0 (for the `clear`
counterexample). -/
def twoEntryStore : Store :=
  { nextRowid := 2
    rows := [⟨0, sampleEntry "c1" "first" false 10 1000 none⟩,
             ⟨1, sampleEntry "c2" "second" false 20 1000 none⟩] }

/-- Capture state buffering text for run "r1". -/
def bufferedState : CaptureState :=
  { runTextBuffers := [("r1", "  Hello world  ")]
    runSessionKeys := [("r1", "agent:main:main")] }

/-- An assistant-stream text fragment event for run "r1". -/
def assistantEvent : AgentEventPayload :=
  { sessionKey := some "agent:main:main"
    runId := "r1"
    stream := "assistant"
    dataText := some "  Hello world  "
    dataPhase := none }

/-- A lifecycle "end" event for run "r1". -/
def endEvent : AgentEventPayload :=
  { sessionKey := some "agent:main:main"
    runId := "r1"
    stream := "lifecycle"
    dataText := none
    dataPhase := some "end" }

/-- A lifecycle "error" event for run "r1". -/
def errorEvent : AgentEventPayload :=
  { sessionKey := none
    runId := "r1"
    stream := "lifecycle"
    dataText := none
    dataPhase := some "error" }

/-- A three-step add plan with increasing clocks and distinct ids. -/
def threeSteps : List AddStep :=
  [⟨{ sampleInput with summary := "First" }, 1000, "id-a"⟩,
   ⟨{ sampleInput with summary := "Second" }, 1001, "id-b"⟩,
   ⟨{ sampleInput with summary := "Third" }, 1002, "id-c"⟩]

/-! ## Theorems -/

/-- C7: the relative-time label is "just now" when the elapsed time is
under one minute, the floor of elapsed minutes with "m ago" under 60
minutes, the floor of elapsed hours with "h ago" under 24 hours, and the
floor of elapsed days with "d ago" otherwise — floors, never rounding
up. -/
theorem formatRelativeTime_floor_spec (t now : Int) :
    (now - t < 60000 → formatRelativeTime t now = "just now") ∧
    (60000 ≤ now - t → now - t < 3600000 →
      formatRelativeTime t now = toString ((now - t) / 60000) ++ "m ago") ∧
    (3600000 ≤ now - t → now - t < 86400000 →
      formatRelativeTime t now = toString ((now - t) / 3600000) ++ "h ago") ∧
    (86400000 ≤ now - t →
      formatRelativeTime t now = toString ((now - t) / 86400000) ++ "d ago") := by
  refine ⟨fun h => ?_, fun h h2 => ?_, fun h h2 => ?_, fun h => ?_⟩
  all_goals
    simp only [formatRelativeTime]
    split_ifs with h3 h4 h5 <;>
      first
        | rfl
        | omega
        | (congr 2 <;> omega)

/-- Helper: the selection loop returns a prefix of its input. -/
theorem truncGo_isPrefix (m : Int) :
    ∀ (es : List ContextEntry) (used : Int) (st : Bool),
      truncGo m used st es <+: es := by
  intro es
  induction es with
  | nil => intro used st; simp [truncGo]
  | cons e rest ih =>
    intro used st
    simp only [truncGo]
    split
    · exact List.nil_prefix
    · obtain ⟨tl, htl⟩ := ih (used + (estimateTokens e.summary : Int)) true
      exact ⟨tl, by rw [List.cons_append, htl]⟩

/-- Helper: once an entry has been included, the running total never
exceeds the budget on inclusion, so the selected entries' cost stays
within budget whenever the selection from a started state is non-empty. -/
theorem truncGo_cost (m : Int) :
    ∀ (es : List ContextEntry) (used : Int),
      truncGo m used true es ≠ [] →
      used + summaryCost (truncGo m used true es) ≤ m := by
  intro es
  induction es with
  | nil => intro used h; simp [truncGo] at h
  | cons e rest ih =>
    intro used h
    simp only [truncGo] at h ⊢
    by_cases hc : m < used + (estimateTokens e.summary : Int)
    · rw [if_pos (by simp [hc])] at h
      exact absurd rfl h
    · rw [if_neg (by simp [hc])]
      simp only [summaryCost, List.map_cons, List.sum_cons]
      by_cases hrest : truncGo m (used + (estimateTokens e.summary : Int)) true rest = []
      · rw [hrest]
        simp only [List.map_nil, List.sum_nil]
        omega
      · have := ih (used + (estimateTokens e.summary : Int)) hrest
        simp only [summaryCost] at this
        omega

/-- Helper: when the selection stops early, the first excluded entry
would have pushed the running total over the budget. -/
theorem truncGo_stop (m : Int) :
    ∀ (es : List ContextEntry) (used : Int) (st : Bool),
      (truncGo m used st es).length < es.length →
      m < used + summaryCost (es.take ((truncGo m used st es).length + 1)) := by
  intro es
  induction es with
  | nil => intro used st h; simp [truncGo] at h
  | cons e rest ih =>
    intro used st h
    simp only [truncGo] at h ⊢
    by_cases hc : (decide (m < used + (estimateTokens e.summary : Int)) && st) = true
    · rw [if_pos hc] at h ⊢
      simp only [List.length_nil, Nat.zero_add, List.take_succ_cons, List.take_zero,
        summaryCost, List.map_cons, List.map_nil, List.sum_cons, List.sum_nil]
      have : m < used + (estimateTokens e.summary : Int) := by
        simp only [Bool.and_eq_true, decide_eq_true_iff] at hc
        exact hc.1
      omega
    · rw [if_neg (by simp [hc])] at h ⊢
      simp only [List.length_cons, Nat.add_lt_add_iff_right] at h
      have := ih (used + (estimateTokens e.summary : Int)) true h
      simp only [List.length_cons, List.take_succ_cons, summaryCost, List.map_cons,
        List.sum_cons] at *
      omega

/-- C5: the manager's token-budget selection returns a prefix of the
ordered list; it is non-empty whenever the input is; whenever it kept at
least two entries the total selected cost fits the budget (an entry is
included only if it fits, except a lone first entry); and when it stopped
before the end, the first excluded entry would have exceeded the
budget. -/
theorem truncateToTokenBudget_spec (entries : List ContextEntry) (maxTokens : Int) :
    truncateToTokenBudget entries maxTokens <+: entries ∧
    (entries ≠ [] → truncateToTokenBudget entries maxTokens ≠ []) ∧
    (2 ≤ (truncateToTokenBudget entries maxTokens).length →
      summaryCost (truncateToTokenBudget entries maxTokens) ≤ maxTokens) ∧
    ((truncateToTokenBudget entries maxTokens).length < entries.length →
      maxTokens <
        summaryCost
          (entries.take ((truncateToTokenBudget entries maxTokens).length + 1))) := by
  refine ⟨truncGo_isPrefix maxTokens entries 0 false, ?_, ?_, ?_⟩
  · intro hne
    cases entries with
    | nil => exact absurd rfl hne
    | cons e rest => simp [truncateToTokenBudget, truncGo]
  · intro h2
    unfold truncateToTokenBudget at h2 ⊢
    cases entries with
    | nil => simp [truncGo] at h2
    | cons e rest =>
      simp only [truncGo, Bool.and_false, Bool.false_eq_true, if_false] at h2 ⊢
      have hne : truncGo maxTokens (0 + (estimateTokens e.summary : Int)) true rest ≠ [] := by
        intro hnil
        rw [hnil] at h2
        simp at h2
      have := truncGo_cost maxTokens rest (0 + (estimateTokens e.summary : Int)) hne
      simp only [summaryCost, List.map_cons, List.sum_cons] at *
      omega
  · intro h
    unfold truncateToTokenBudget at h ⊢
    have := truncGo_stop maxTokens entries 0 false h
    omega

/-- Witness for C5 on three one-token entries and a budget of two. -/
theorem truncateToTokenBudget_spec_witness :
    truncateToTokenBudget tinyEntries 2 ≠ [] ∧
    summaryCost (truncateToTokenBudget tinyEntries 2) ≤ 2 ∧
    2 < summaryCost
        (tinyEntries.take ((truncateToTokenBudget tinyEntries 2).length + 1)) :=
  ⟨(truncateToTokenBudget_spec tinyEntries 2).2.1 (by decide),
   (truncateToTokenBudget_spec tinyEntries 2).2.2.1 (by decide),
   (truncateToTokenBudget_spec tinyEntries 2).2.2.2 (by decide)⟩

/-- C10: malformed input to `add` (empty session key, empty summary, or a
session type outside the closed enumeration) raises a validation error
synchronously and leaves the store state untouched: no pruning, insertion,
or cap enforcement has happened. -/
theorem add_rejects_invalid_input (cfg : ManagerConfig) (s : Store)
    (input : CreateEntryInput) (now : Int) (newId : String)
    (h : input.sessionKey = "" ∨ input.summary = "" ∨
      input.sessionType ∉ SESSION_TYPES) :
    managerAdd cfg s input now newId = .error "CreateEntrySchema validation failed" ∧
    managerAddState cfg s input now newId = s := by
  have hv : validateCreateEntry input = false := by
    unfold validateCreateEntry
    rcases h with h | h | h
    · rw [h]; simp
    · rw [h]; simp
    · have hc : SESSION_TYPES.contains input.sessionType = false := by
        simpa using h
      simp only [hc, Bool.and_false, Bool.false_and]
  constructor
  · unfold managerAdd
    rw [hv]
    simp
  · unfold managerAddState managerAdd
    rw [hv]
    simp

/-- Witness for C10: an empty session key is rejected and a store holding
two already-expired unpinned entries keeps both (no pruning happened). -/
theorem add_rejects_invalid_input_witness :
    managerAdd cfg20 twoEntryStore badInput 2000 "x" =
      .error "CreateEntrySchema validation failed" ∧
    managerAddState cfg20 twoEntryStore badInput 2000 "x" = twoEntryStore :=
  add_rejects_invalid_input cfg20 twoEntryStore badInput 2000 "x" (Or.inl rfl)

/-- C1: a pinned row survives `pruneExpired` at any current time and
`enforceMaxEntries` at any cap, whatever its expiry or age; only the
explicit delete operations can remove it.  The `Nodup` hypothesis states
that entry ids are unique across rows, which the `id TEXT PRIMARY KEY`
column guarantees for every reachable store. -/
theorem pinned_survives_eviction (s : Store) (now : Int) (maxEntries : Nat)
    (r : Row) (hids : (s.rows.map (fun x => x.entry.id)).Nodup)
    (hr : r ∈ s.rows) (hp : r.entry.pinned = true) :
    r ∈ (s.pruneExpired now).1.rows ∧ r ∈ (s.enforceMaxEntries maxEntries).1.rows := by
  constructor
  · unfold Store.pruneExpired
    exact List.mem_filter.mpr ⟨hr, by simp [hp]⟩
  · unfold Store.enforceMaxEntries
    refine List.mem_filter.mpr ⟨hr, ?_⟩
    simp only [Bool.not_eq_true', List.elem_eq_mem, decide_eq_false_iff_not,
      List.mem_map, not_exists, not_and]
    intro v hv hvid
    have hv1 : v ∈ (s.rows.filter (fun x => !x.entry.pinned)).insertionSort createdLE :=
      List.drop_subset _ _ hv
    have hv2 : v ∈ s.rows.filter (fun x => !x.entry.pinned) := by
      rwa [List.mem_insertionSort] at hv1
    obtain ⟨hvmem, hvpin⟩ := List.mem_filter.mp hv2
    have : v = r := List.inj_on_of_nodup_map hids hvmem hr hvid
    rw [this, hp] at hvpin
    simp at hvpin

/-- Witness for C1: the pinned, long-expired entry of `pinnedStore`
survives a prune at a much later time and a cap of zero. -/
theorem pinned_survives_eviction_witness :
    pinnedRow ∈ (pinnedStore.pruneExpired 500000).1.rows ∧
    pinnedRow ∈ (pinnedStore.enforceMaxEntries 0).1.rows :=
  pinned_survives_eviction pinnedStore 500000 0 pinnedRow (by decide) (by decide) rfl

/-- Helper: token estimation is monotone in string length. -/
theorem estimateTokens_mono {a b : String} (h : a.length ≤ b.length) :
    estimateTokens a ≤ estimateTokens b :=
  Nat.div_le_div_right (by omega)

/-- Helper: a rendered line is at least as long as the summary it carries. -/
theorem formatEntry_length (e : ContextEntry) (nowMs : Int) :
    e.summary.length ≤ (formatEntry e nowMs).length := by
  simp only [formatEntry, String.length_append]
  omega

/-- Helper: the summaries of a list cost at most as much as its rendered
lines. -/
theorem summaryCost_le_lineCost (nowMs : Int) (es : List ContextEntry) :
    summaryCost es ≤ lineCost nowMs es := by
  unfold summaryCost lineCost
  refine List.sum_le_sum ?_
  intro e _
  exact_mod_cast estimateTokens_mono (formatEntry_length e nowMs)

/-- Helper: if the rendering loop never hit the budget, every line was
emitted and (for a non-empty input) their total cost fits the budget. -/
theorem formatLoop_no_marker (nowMs : Int) :
    ∀ (es : List ContextEntry) (b : Int), (formatLoop nowMs es b).2 = false →
      es ≠ [] → lineCost nowMs es ≤ b := by
  intro es
  induction es with
  | nil => intro b _ hne; exact absurd rfl hne
  | cons e rest ih =>
    intro b h _
    simp only [formatLoop] at h
    by_cases hc : b - (estimateTokens (formatEntry e nowMs) : Int) < 0
    · rw [if_pos hc] at h
      simp at h
    · rw [if_neg hc] at h
      simp only at h
      by_cases hrest : rest = []
      · subst hrest
        simp only [lineCost, List.map_cons, List.map_nil, List.sum_cons, List.sum_nil]
        omega
      · have := ih (b - (estimateTokens (formatEntry e nowMs) : Int)) h hrest
        simp only [lineCost, List.map_cons, List.sum_cons] at *
        omega

/-- Helper: when the rendering loop hit the budget, strictly fewer entry
lines than input entries were emitted. -/
theorem formatLoop_marker_lines (nowMs : Int) :
    ∀ (es : List ContextEntry) (b : Int), (formatLoop nowMs es b).2 = true →
      (formatLoop nowMs es b).1.length < es.length := by
  intro es
  induction es with
  | nil => intro b h; simp [formatLoop] at h
  | cons e rest ih =>
    intro b h
    simp only [formatLoop] at h ⊢
    by_cases hc : b - (estimateTokens (formatEntry e nowMs) : Int) < 0
    · rw [if_pos hc]
      simp
    · rw [if_neg hc] at h ⊢
      simp only [List.length_cons] at *
      exact Nat.add_lt_add_right
        (ih (b - (estimateTokens (formatEntry e nowMs) : Int)) h) 1

/-- C6 (as amended): `formatForSystemPrompt` of the empty list is the
empty string for any options; and for a non-empty list whose cumulative
estimated token cost exceeds `maxTokens`, the output appends the
truncation marker after strictly fewer entry lines than the input entry
count — possibly zero entry lines, since no first-entry fallback exists
in the rendering loop. -/
theorem formatForSystemPrompt_spec :
    (∀ (options : FormatOptions) (clockNow : Int),
      formatForSystemPrompt [] options clockNow = "") ∧
    (∀ (entries : List ContextEntry) (options : FormatOptions) (clockNow : Int),
      entries ≠ [] →
      options.maxTokens.getD 2000 < summaryCost entries →
      (formatLoop (options.now.getD clockNow) entries
          (options.maxTokens.getD 2000 -
            (estimateTokens WORKING_CONTEXT_HEADER : Int))).2 = true ∧
      (formatLoop (options.now.getD clockNow) entries
          (options.maxTokens.getD 2000 -
            (estimateTokens WORKING_CONTEXT_HEADER : Int))).1.length <
        entries.length ∧
      formatForSystemPrompt entries options clockNow =
        WORKING_CONTEXT_HEADER ++ String.intercalate "\n"
          ((formatLoop (options.now.getD clockNow) entries
              (options.maxTokens.getD 2000 -
                (estimateTokens WORKING_CONTEXT_HEADER : Int))).1 ++
            [TRUNCATION_MARKER])) := by
  constructor
  · intro options clockNow
    simp [formatForSystemPrompt]
  · intro entries options clockNow hne hcost
    have hflag : (formatLoop (options.now.getD clockNow) entries
        (options.maxTokens.getD 2000 -
          (estimateTokens WORKING_CONTEXT_HEADER : Int))).2 = true := by
      by_contra hnot
      have hfalse : (formatLoop (options.now.getD clockNow) entries
          (options.maxTokens.getD 2000 -
            (estimateTokens WORKING_CONTEXT_HEADER : Int))).2 = false := by
        revert hnot
        cases (formatLoop (options.now.getD clockNow) entries
            (options.maxTokens.getD 2000 -
              (estimateTokens WORKING_CONTEXT_HEADER : Int))).2 <;> simp
      have hfit := formatLoop_no_marker (options.now.getD clockNow) entries
        (options.maxTokens.getD 2000 -
          (estimateTokens WORKING_CONTEXT_HEADER : Int)) hfalse hne
      have hmono := summaryCost_le_lineCost (options.now.getD clockNow) entries
      have hhdr : (0 : Int) ≤ (estimateTokens WORKING_CONTEXT_HEADER : Int) := by
        positivity
      omega
    refine ⟨hflag, formatLoop_marker_lines (options.now.getD clockNow) entries _ hflag, ?_⟩
    unfold formatForSystemPrompt
    rw [if_neg (by simp [hne])]
    simp [hflag]

/-- Witness for C6 (amended): fifty entries of cost 10 against a budget
of 200 exceed it, the marker is emitted, and fewer than fifty lines
appear. -/
theorem formatForSystemPrompt_spec_witness :
    (formatLoop 0 (List.replicate 50 longEntry)
        ((200 : Int) - (estimateTokens WORKING_CONTEXT_HEADER : Int))).2 = true ∧
    (formatLoop 0 (List.replicate 50 longEntry)
        ((200 : Int) - (estimateTokens WORKING_CONTEXT_HEADER : Int))).1.length < 50 ∧
    formatForSystemPrompt [] { maxTokens := some 200 } 7 = "" := by
  have h := (formatForSystemPrompt_spec.2 (List.replicate 50 longEntry)
    { maxTokens := some 200, now := some 0 } 0 (by decide) (by decide))
  exact ⟨h.1, by simpa using h.2.1, formatForSystemPrompt_spec.1 { maxTokens := some 200 } 7⟩

/-- Counterexample for C6 as stated: one entry whose summary alone costs
14 tokens against `maxTokens = 12` satisfies the claim's premise
(cumulative cost exceeds the budget, input non-empty), yet the output is
the header plus the truncation marker with zero entry lines — the claimed
"at least one entry line" fails. -/
theorem formatForSystemPrompt_no_entry_line_counterexample :
    (12 : Int) < summaryCost [longEntry] ∧
    (formatLoop 0 [longEntry]
        ((12 : Int) - (estimateTokens WORKING_CONTEXT_HEADER : Int))).1.length = 0 ∧
    formatForSystemPrompt [longEntry] { maxTokens := some 12, now := some 0 } 0 =
      WORKING_CONTEXT_HEADER ++ TRUNCATION_MARKER := by
  refine ⟨by decide, by decide, ?_⟩
  decide

/-- Helper: the WHERE clause the store builds coincides with the spec's
selection rule. -/
theorem rowMatches_iff (now : Int) (o : GetRecentOptions) (e : ContextEntry) :
    rowMatches now o e = true ↔ includedSpec now o e := by
  unfold rowMatches includedSpec
  rcases o with ⟨l, ma, st, t⟩
  rcases ma <;> rcases st <;> rcases t <;>
    simp [Bool.and_eq_true, Bool.or_eq_true, decide_eq_true_iff, and_assoc,
      beq_iff_eq]

/-- C4: `getRecent` returns at most `limit` entries (default 100); every
returned entry satisfies the spec's selection rule; the result is exactly
the spec-filtered rows ordered by pinned first, creation time descending,
insertion order (rowid) descending, cut to the limit; and the output is
pairwise ordered pinned-first then newest-first. -/
theorem getRecent_spec (s : Store) (o : GetRecentOptions) (now : Int) :
    (s.getRecent o now).length ≤ o.limit.getD 100 ∧
    (∀ e ∈ s.getRecent o now, includedSpec now o e) ∧
    s.getRecent o now =
      (((s.rows.filter (fun r => decide (includedSpec now o r.entry))).insertionSort
          rowLE).take (o.limit.getD 100)).map Row.entry ∧
    (s.getRecent o now).Pairwise entryPriorityGE := by
  have hfiltereq : s.rows.filter (fun r => rowMatches now o r.entry)
      = s.rows.filter (fun r => decide (includedSpec now o r.entry)) :=
    List.filter_congr (fun r _ => by
      rw [Bool.eq_iff_iff, decide_eq_true_iff]
      exact rowMatches_iff now o r.entry)
  refine ⟨?_, ?_, ?_, ?_⟩
  · unfold Store.getRecent
    rw [List.length_map]
    exact List.length_take_le _ _
  · intro e he
    unfold Store.getRecent at he
    obtain ⟨r, hr, hre⟩ := List.mem_map.mp he
    have hr2 : r ∈ (s.rows.filter
        (fun r => rowMatches now o r.entry)).insertionSort rowLE :=
      List.take_subset _ _ hr
    rw [List.mem_insertionSort] at hr2
    rw [← hre]
    exact (rowMatches_iff now o r.entry).mp (List.mem_filter.mp hr2).2
  · unfold Store.getRecent
    rw [hfiltereq]
  · unfold Store.getRecent
    have hsorted : ((s.rows.filter
        (fun r => rowMatches now o r.entry)).insertionSort rowLE).Pairwise rowLE :=
      List.sorted_insertionSort rowLE _
    have htake := List.Pairwise.sublist (List.take_sublist (o.limit.getD 100) _) hsorted
    refine List.pairwise_map.mpr (htake.imp ?_)
    intro a b hab
    unfold rowLE at hab
    unfold entryPriorityGE
    omega

/-- Witness for C4 on `pinnedStore` at time 500: the expired pinned entry
is selected, the bound holds, and the output is priority-ordered. -/
theorem getRecent_spec_witness :
    (pinnedStore.getRecent {} 500).length ≤ 100 ∧
    includedSpec 500 {} (sampleEntry "p1" "pinned note" true 100 200 none) ∧
    (pinnedStore.getRecent {} 500).Pairwise entryPriorityGE := by
  have h := getRecent_spec pinnedStore {} 500
  exact ⟨h.1, h.2.1 _ (by decide), h.2.2.2⟩

/-- Helper: deleting a list of entries one by one through `Store.delete`
removes exactly the rows whose id occurs in the list. -/
theorem foldl_delete_rows :
    ∀ (es : List ContextEntry) (s : Store),
      (es.foldl (fun acc e => (acc.delete e.id).1) s).rows =
        s.rows.filter (fun r => !(es.map (fun e => e.id)).contains r.entry.id) := by
  intro es
  induction es with
  | nil => intro s; simp
  | cons e rest ih =>
    intro s
    simp only [List.foldl_cons]
    rw [ih]
    simp only [Store.delete]
    rw [List.filter_filter]
    apply List.filter_congr
    intro r _
    simp only [List.map_cons, List.contains_cons, Bool.not_or]
    cases r.entry.id == e.id <;> simp

/-- C9 (as amended): the manager's `clear` fetches up to 10,000 recent
entries and deletes each one by id through the same code path as
individual deletes — exactly the fetched ids disappear from the store —
but the operation's return type is void: it reports no count of the
removed entries. -/
theorem clear_spec (s : Store) (now : Int) :
    (s.getRecent { limit := some 10000 } now).length ≤ 10000 ∧
    (managerClear s now).1.rows = s.rows.filter
      (fun r => !((s.getRecent { limit := some 10000 } now).map
        (fun e => e.id)).contains r.entry.id) ∧
    (managerClear s now).2 = none := by
  refine ⟨?_, ?_, rfl⟩
  · unfold Store.getRecent
    rw [List.length_map]
    exact List.length_take_le _ _
  · unfold managerClear
    exact foldl_delete_rows _ s

/-- Counterexample for C9 as stated: on a store with two live entries,
`clear` removes both yet returns no count at all (its return type is
void, modelled as the `none` report), in particular not the removed
total 2 that the claimed counting would produce. -/
theorem clear_counts_nothing_counterexample :
    (managerClear twoEntryStore 0).1.rows = [] ∧
    twoEntryStore.rows.length = 2 ∧
    (managerClear twoEntryStore 0).2 = none ∧
    (managerClear twoEntryStore 0).2 ≠ some 2 := by
  refine ⟨by decide, rfl, rfl, by decide⟩

/-- Helper: setting a key makes it readable. -/
theorem mapGet_mapSet_same :
    ∀ (m : List (String × String)) (k v : String),
      mapGet (mapSet m k v) k = some v := by
  intro m
  induction m with
  | nil => intro k v; simp [mapSet, mapGet, List.lookup_cons]
  | cons p rest ih =>
    intro k v
    obtain ⟨k1, v1⟩ := p
    simp only [mapSet]
    by_cases h : k1 = k
    · rw [if_pos h]
      simp [mapGet, List.lookup_cons]
    · rw [if_neg h]
      have hbeq : (k == k1) = false := by
        simp only [beq_eq_false_iff_ne, ne_eq]
        exact fun hh => h hh.symm
      simp only [mapGet, List.lookup_cons, hbeq]
      exact ih k v

/-- Helper: a deleted key reads back as absent. -/
theorem mapGet_mapDelete_same :
    ∀ (m : List (String × String)) (k : String),
      mapGet (mapDelete m k) k = none := by
  intro m
  induction m with
  | nil => intro k; simp [mapDelete, mapGet]
  | cons p rest ih =>
    intro k
    obtain ⟨k1, v1⟩ := p
    simp only [mapDelete, List.filter_cons]
    by_cases h : (k1 == k) = true
    · rw [if_neg (by simp [h])]
      exact ih k
    · rw [if_pos (by simp [Bool.not_eq_true] at h; simp [h])]
      have hbeq : (k == k1) = false := by
        simp only [beq_eq_false_iff_ne, ne_eq]
        intro hh
        exact h (by simp [hh])
      simp only [mapGet, List.lookup_cons, hbeq]
      exact ih k

/-- C8: per-event contract of the capture handler.  An assistant-stream
text fragment (with a truthy session key) is buffered under its run id
and triggers no add; a terminal "end" phase (resolvable session key,
capture enabled) emits exactly one add call whose summary is the buffered
text — trimmed, cut to 197 characters plus an ellipsis when over 200 — or
the fixed fallback when nothing was buffered, and clears the run's
buffered state; a terminal "error" phase discards the buffered state
without emitting an add; after either terminal outcome the run's buffer
slots read back empty. -/
theorem captureStep_contract (enabled autoCapture : Bool) (st : CaptureState)
    (evt : AgentEventPayload) :
    (∀ sk txt, evt.stream = "assistant" → evt.sessionKey = some sk → sk ≠ "" →
      evt.dataText = some txt →
      (captureStep enabled autoCapture st evt).2 = none ∧
      mapGet (captureStep enabled autoCapture st evt).1.runTextBuffers evt.runId =
        some txt ∧
      mapGet (captureStep enabled autoCapture st evt).1.runSessionKeys evt.runId =
        some sk) ∧
    (∀ sk, evt.stream = "lifecycle" → evt.dataPhase = some "end" →
      evt.sessionKey = some sk → sk ≠ "" → enabled = true → autoCapture = true →
      (captureStep enabled autoCapture st evt).2 =
        some { sessionKey := sk
               sessionType := mapSessionType sk
               summary := captureSummary (mapGet st.runTextBuffers evt.runId)
               taskId := none
               metadata := none } ∧
      (captureStep enabled autoCapture st evt).1 = clearRun st evt.runId) ∧
    (evt.stream = "lifecycle" → evt.dataPhase = some "error" →
      (captureStep enabled autoCapture st evt).2 = none ∧
      (captureStep enabled autoCapture st evt).1 = clearRun st evt.runId) ∧
    (mapGet (clearRun st evt.runId).runTextBuffers evt.runId = none ∧
      mapGet (clearRun st evt.runId).runSessionKeys evt.runId = none) ∧
    captureSummary none = "Agent turn completed" ∧
    (∀ txt, txt ≠ "" → jsTrim txt ≠ "" →
      captureSummary (some txt) =
        if 200 < (jsTrim txt).length then jsTake (jsTrim txt) 197 ++ "..."
        else jsTrim txt) := by
  refine ⟨?_, ?_, ?_, ?_, rfl, ?_⟩
  · intro sk txt hstream hkey hsk htext
    simp only [captureStep, hstream, hkey, htext]
    simp [hsk, mapGet_mapSet_same]
  · intro sk hstream hphase hkey hsk hen hauto
    simp only [captureStep, hstream, hphase, hkey, hen, hauto]
    simp [hsk]
  · intro hstream hphase
    simp only [captureStep, hstream, hphase]
    simp
  · exact ⟨mapGet_mapDelete_same st.runTextBuffers evt.runId,
      mapGet_mapDelete_same st.runSessionKeys evt.runId⟩
  · intro txt h1 h2
    simp [captureSummary, h1, h2]

/-- Witness for C8: a buffered fragment for run "r1", then an "end" event
emitting one add with the trimmed summary; an "error" event on the same
state discards everything without an add. -/
theorem captureStep_contract_witness :
    (captureStep true true ⟨[], []⟩ assistantEvent).2 = none ∧
    mapGet (captureStep true true ⟨[], []⟩ assistantEvent).1.runTextBuffers "r1" =
      some "  Hello world  " ∧
    (captureStep true true bufferedState endEvent).2 =
      some { sessionKey := "agent:main:main"
             sessionType := "dm"
             summary := "Hello world"
             taskId := none
             metadata := none } ∧
    (captureStep true true bufferedState endEvent).1 = clearRun bufferedState "r1" ∧
    (captureStep true true bufferedState errorEvent).2 = none ∧
    (captureStep true true bufferedState errorEvent).1 = clearRun bufferedState "r1" := by
  have h1 := (captureStep_contract true true ⟨[], []⟩ assistantEvent).1
    "agent:main:main" "  Hello world  " rfl rfl (by decide) rfl
  have h2 := (captureStep_contract true true bufferedState endEvent).2.1
    "agent:main:main" rfl rfl rfl (by decide) rfl rfl
  have h3 := (captureStep_contract true true bufferedState errorEvent).2.2.1 rfl rfl
  refine ⟨h1.1, h1.2.1, ?_, h2.2, h3.1, h3.2⟩
  rw [h2.1]
  decide

/-- Helper: for a positive offset, dropping `m` elements loses at least
whatever dropping one loses. -/
theorem drop_subset_drop_one {α : Type} (l : List α) (m : Nat) (h : 1 ≤ m) :
    l.drop m ⊆ l.drop 1 := by
  intro a ha
  have heq : l.drop m = (l.drop 1).drop (m - 1) := by
    rw [List.drop_drop]
    congr 1
    omega
  rw [heq] at ha
  exact List.drop_subset _ _ ha

/-- Helper: a row that occurs once and strictly precedes every other row
in the `createdLE` order heads any sorted listing, so it survives any
positive drop. -/
theorem strict_max_not_mem_drop_one (L : List Row) (x : Row)
    (hsort : L.Pairwise createdLE) (hcount : L.count x = 1)
    (hstrict : ∀ y ∈ L, y ≠ x → ¬ createdLE y x) :
    x ∉ L.drop 1 := by
  cases L with
  | nil => simp
  | cons a t =>
    simp only [List.drop_succ_cons, List.drop_zero]
    intro hxt
    have hax : createdLE a x := (List.pairwise_cons.mp hsort).1 x hxt
    by_cases hae : a = x
    · subst hae
      rw [List.count_cons_self] at hcount
      have hz : t.count a = 0 := by omega
      rw [List.count_eq_zero] at hz
      exact hz hxt
    · exact hstrict a (List.mem_cons_self a t) hae hax

/-- Helper: `enforceMaxEntries` applied after appending a strictly newest
unpinned row never selects that row as a victim, and every victim comes
from the pre-existing rows. -/
theorem enforce_keeps_newest (R : List Row) (x : Row) (m : Nat) (hm : 1 ≤ m)
    (hpin : x.entry.pinned = false)
    (hmax : ∀ r ∈ R, r.entry.createdAt ≤ x.entry.createdAt ∧ r.rowid < x.rowid) :
    x ∉ (((R ++ [x]).filter (fun r => !r.entry.pinned)).insertionSort
        createdLE).drop m ∧
    ∀ v ∈ (((R ++ [x]).filter (fun r => !r.entry.pinned)).insertionSort
        createdLE).drop m, v ∈ R := by
  have hxufilter : (R ++ [x]).filter (fun r => !r.entry.pinned)
      = R.filter (fun r => !r.entry.pinned) ++ [x] := by
    rw [List.filter_append]
    congr 1
    simp [hpin]
  have hxnotR : x ∉ R.filter (fun r => !r.entry.pinned) := by
    intro hx
    have := (hmax x ((List.mem_filter.mp hx).1)).2
    omega
  have hcount : ((R ++ [x]).filter (fun r => !r.entry.pinned)).count x = 1 := by
    rw [hxufilter, List.count_append, List.count_eq_zero.mpr hxnotR]
    simp
  have hperm := List.perm_insertionSort createdLE
    ((R ++ [x]).filter (fun r => !r.entry.pinned))
  have hcountL : (((R ++ [x]).filter
      (fun r => !r.entry.pinned)).insertionSort createdLE).count x = 1 := by
    rw [hperm.count_eq]
    exact hcount
  have hsort := List.sorted_insertionSort createdLE
    ((R ++ [x]).filter (fun r => !r.entry.pinned))
  have hstrict : ∀ y ∈ ((R ++ [x]).filter
      (fun r => !r.entry.pinned)).insertionSort createdLE,
      y ≠ x → ¬ createdLE y x := by
    intro y hy hyx
    rw [List.mem_insertionSort, hxufilter] at hy
    rcases List.mem_append.mp hy with hy | hy
    · have hmem := (List.mem_filter.mp hy).1
      have h1 := (hmax y hmem).1
      have h2 := (hmax y hmem).2
      unfold createdLE
      omega
    · simp only [List.mem_singleton] at hy
      exact absurd hy hyx
  have hxdrop := strict_max_not_mem_drop_one _ x hsort hcountL hstrict
  have hnot : x ∉ (((R ++ [x]).filter
      (fun r => !r.entry.pinned)).insertionSort createdLE).drop m :=
    fun hx => hxdrop (drop_subset_drop_one _ m hm hx)
  refine ⟨hnot, ?_⟩
  intro v hv
  have hvL : v ∈ ((R ++ [x]).filter
      (fun r => !r.entry.pinned)).insertionSort createdLE :=
    List.drop_subset _ _ hv
  rw [List.mem_insertionSort, hxufilter] at hvL
  rcases List.mem_append.mp hvL with h | h
  · exact (List.mem_filter.mp h).1
  · simp only [List.mem_singleton] at h
    subst h
    exact absurd hv hnot

/-- Helper: after deleting the victim ids, looking up a row whose id no
victim and no pre-existing row carries finds exactly the appended row. -/
theorem find_new_after_filter (F : List Row) (x : Row) (V : List Row)
    (hVF : ∀ v ∈ V, v.entry.id ≠ x.entry.id)
    (hFid : ∀ r ∈ F, r.entry.id ≠ x.entry.id) :
    (((F ++ [x]).filter
        (fun r => !(V.map (fun r => r.entry.id)).contains r.entry.id)).find?
      (fun r => r.entry.id == x.entry.id)).map Row.entry = some x.entry := by
  rw [List.filter_append, List.find?_append]
  have h1 : (F.filter
      (fun r => !(V.map (fun r => r.entry.id)).contains r.entry.id)).find?
        (fun r => r.entry.id == x.entry.id) = none := by
    rw [List.find?_eq_none]
    intro r hr
    simp only [beq_iff_eq]
    exact hFid r (List.mem_filter.mp hr).1
  have h2 : (([x] : List Row).filter
      (fun r => !(V.map (fun r => r.entry.id)).contains r.entry.id)) = [x] := by
    simp only [List.filter_cons]
    rw [if_pos]
    simp only [List.filter_nil]
    simp only [Bool.not_eq_true', List.elem_eq_mem, decide_eq_false_iff_not,
      List.mem_map, not_exists, not_and]
    intro v hv
    exact hVF v hv
  rw [h1, h2]
  simp

/-- C2: for every valid input, `add` returns the materialized entry and
`getById` on its id reads the very same entry back, all fields included.
The hypotheses record the ambient guarantees of the real system: the
configured cap is positive (the config schema enforces this), live
rowids sit below the next rowid SQLite will assign, `randomUUID` never
collides with a stored id, and no stored row carries a creation time in
the future. -/
theorem add_then_getById (cfg : ManagerConfig) (s : Store)
    (input : CreateEntryInput) (now : Int) (newId : String)
    (hval : validateCreateEntry input = true)
    (hcap : 1 ≤ cfg.maxEntries)
    (hwf : ∀ r ∈ s.rows, r.rowid < s.nextRowid)
    (hfresh : ∀ r ∈ s.rows, r.entry.id ≠ newId)
    (hclock : ∀ r ∈ s.rows, r.entry.createdAt ≤ now) :
    managerAdd cfg s input now newId =
      .ok (managerAddState cfg s input now newId,
        mkContextEntry input cfg.defaultTtlMinutes now newId) ∧
    (managerAddState cfg s input now newId).getById newId =
      some (mkContextEntry input cfg.defaultTtlMinutes now newId) := by
  have hok : managerAdd cfg s input now newId =
      .ok ((((s.pruneExpired now).1.insert input cfg.defaultTtlMinutes now
          newId).1.enforceMaxEntries cfg.maxEntries).1,
        mkContextEntry input cfg.defaultTtlMinutes now newId) := by
    unfold managerAdd
    rw [hval]
    rfl
  have hstate : managerAddState cfg s input now newId =
      (((s.pruneExpired now).1.insert input cfg.defaultTtlMinutes now
          newId).1.enforceMaxEntries cfg.maxEntries).1 := by
    unfold managerAddState
    rw [hok]
  refine ⟨by rw [hok, hstate], ?_⟩
  rw [hstate]
  have hFsub : ∀ r ∈ (s.pruneExpired now).1.rows, r ∈ s.rows := by
    intro r hr
    exact (List.mem_filter.mp hr).1
  have hkeep := enforce_keeps_newest (s.pruneExpired now).1.rows
    (Row.mk s.nextRowid (mkContextEntry input cfg.defaultTtlMinutes now newId))
    cfg.maxEntries hcap rfl
    (fun r hr => ⟨hclock r (hFsub r hr), hwf r (hFsub r hr)⟩)
  have hvid : ∀ v ∈ ((((s.pruneExpired now).1.rows ++
      [Row.mk s.nextRowid (mkContextEntry input cfg.defaultTtlMinutes now newId)]).filter
        (fun r => !r.entry.pinned)).insertionSort createdLE).drop cfg.maxEntries,
      v.entry.id ≠ newId :=
    fun v hv => hfresh v (hFsub v (hkeep.2 v hv))
  exact find_new_after_filter (s.pruneExpired now).1.rows
    (Row.mk s.nextRowid (mkContextEntry input cfg.defaultTtlMinutes now newId))
    (((((s.pruneExpired now).1.rows ++
      [Row.mk s.nextRowid (mkContextEntry input cfg.defaultTtlMinutes now
        newId)]).filter (fun r => !r.entry.pinned)).insertionSort
          createdLE).drop cfg.maxEntries)
    hvid (fun r hr => hfresh r (hFsub r hr))

/-- Helper: a successful add plan materializes one row per step. -/
theorem planRows_length (ttl : Nat) :
    ∀ (i : Nat) (l : List AddStep), (planRows ttl i l).length = l.length := by
  intro i l
  induction l generalizing i with
  | nil => rfl
  | cons st rest ih => simp [planRows, ih]

/-- Helper: every planned row comes from a step, with a rowid in the
planned range. -/
theorem mem_planRows (ttl : Nat) :
    ∀ (i : Nat) (l : List AddStep) (r : Row), r ∈ planRows ttl i l →
      ∃ st ∈ l, r.entry = mkContextEntry st.input ttl st.time st.newId ∧
        i ≤ r.rowid ∧ r.rowid < i + l.length := by
  intro i l
  induction l generalizing i with
  | nil => intro r hr; simp [planRows] at hr
  | cons st rest ih =>
    intro r hr
    simp only [planRows, List.mem_cons] at hr
    rcases hr with hr | hr
    · subst hr
      exact ⟨st, List.mem_cons_self st rest, rfl, by simp, by simp⟩
    · obtain ⟨q, hq, he, h1, h2⟩ := ih (i + 1) r hr
      exact ⟨q, List.mem_cons_of_mem st hq, he, by omega,
        by simp only [List.length_cons]; omega⟩

/-- Helper: planning one more step appends one more row. -/
theorem planRows_append (ttl : Nat) :
    ∀ (i : Nat) (l : List AddStep) (st : AddStep),
      planRows ttl i (l ++ [st]) = planRows ttl i l ++
        [Row.mk (i + l.length) (mkContextEntry st.input ttl st.time st.newId)] := by
  intro i l
  induction l generalizing i with
  | nil => intro st; simp [planRows]
  | cons q rest ih =>
    intro st
    simp only [List.cons_append, planRows, List.length_cons, List.append_eq]
    rw [ih (i + 1)]
    have harith : i + 1 + rest.length = i + (rest.length + 1) := by omega
    rw [harith]

/-- Helper: the planned rows carry exactly the plan's ids, in order. -/
theorem planRows_ids (ttl : Nat) :
    ∀ (i : Nat) (l : List AddStep),
      (planRows ttl i l).map (fun r => r.entry.id) = l.map AddStep.newId := by
  intro i l
  induction l generalizing i with
  | nil => rfl
  | cons st rest ih => simp [planRows, mkContextEntry, ih]

/-- Helper: with non-decreasing clocks the planned rows strictly ascend in
rowid and weakly ascend in creation time. -/
theorem planRows_pairwise (ttl : Nat) :
    ∀ (i : Nat) (l : List AddStep),
      (l.map AddStep.time).Pairwise (· ≤ ·) →
      (planRows ttl i l).Pairwise
        (fun a b => a.rowid < b.rowid ∧ a.entry.createdAt ≤ b.entry.createdAt) := by
  intro i l
  induction l generalizing i with
  | nil => intro _; simp [planRows]
  | cons st rest ih =>
    intro hp
    simp only [List.map_cons, List.pairwise_cons] at hp
    simp only [planRows, List.pairwise_cons]
    refine ⟨?_, ih (i + 1) hp.2⟩
    intro b hb
    obtain ⟨q, hq, he, h1, _⟩ := mem_planRows ttl (i + 1) rest b hb
    refine ⟨by omega, ?_⟩
    have hbq : b.entry.createdAt = q.time := by rw [he]; rfl
    rw [hbq]
    exact hp.1 q.time (List.mem_map_of_mem AddStep.time hq)

/-- Helper: inserting an element that sorts after everything appends it. -/
theorem orderedInsert_last {α : Type} (r : α → α → Prop) [DecidableRel r] (a : α) :
    ∀ (l : List α), (∀ b ∈ l, ¬ r a b) → l.orderedInsert r a = l ++ [a] := by
  intro l
  induction l with
  | nil => intro _; rfl
  | cons b t ih =>
    intro h
    simp only [List.orderedInsert]
    rw [if_neg (h b (List.mem_cons_self b t))]
    rw [ih (fun c hc => h c (List.mem_cons_of_mem b hc))]
    rfl

/-- Helper: sorting a list in which every element strictly precedes all
later ones in the reversed order just reverses it. -/
theorem insertionSort_eq_reverse {α : Type} (r : α → α → Prop) [DecidableRel r] :
    ∀ (l : List α), l.Pairwise (fun a b => ¬ r a b) →
      l.insertionSort r = l.reverse := by
  intro l
  induction l with
  | nil => intro _; rfl
  | cons a t ih =>
    intro hp
    have hp' := List.pairwise_cons.mp hp
    simp only [List.insertionSort]
    rw [ih hp'.2]
    rw [orderedInsert_last r a t.reverse
      (fun b hb => hp'.1 b (List.mem_reverse.mp hb))]
    rw [List.reverse_cons]

/-- Helper: `enforceMaxEntries` only looks at the rows. -/
theorem enforce_rows_eq_of_rows_eq (s t : Store) (k : Nat) (h : s.rows = t.rows) :
    (s.enforceMaxEntries k).1.rows = (t.enforceMaxEntries k).1.rows := by
  simp only [Store.enforceMaxEntries, h]

/-- Helper: enforcing the cap on an ascending row list that fit the cap
before one row was appended keeps exactly the newest cap-many rows. -/
theorem enforce_after_append (n : Nat) (D : List Row) (x : Row) (k : Nat)
    (hk : 1 ≤ k) (hDk : D.length ≤ k)
    (hpairs : (D ++ [x]).Pairwise
      (fun a b => a.rowid < b.rowid ∧ a.entry.createdAt ≤ b.entry.createdAt))
    (hunpin : ∀ r ∈ D ++ [x], r.entry.pinned = false)
    (hidnodup : ((D ++ [x]).map (fun r => r.entry.id)).Nodup) :
    ((Store.mk n (D ++ [x])).enforceMaxEntries k).1.rows
      = (D ++ [x]).drop (D.length + 1 - k) := by
  have hunp : (D ++ [x]).filter (fun r => !r.entry.pinned) = D ++ [x] := by
    rw [List.filter_eq_self]
    intro r hr
    rw [hunpin r hr]
    rfl
  have hrev : (((Store.mk n (D ++ [x])).rows.filter
      (fun r => !r.entry.pinned)).insertionSort createdLE)
      = x :: D.reverse := by
    show (((D ++ [x]).filter (fun r => !r.entry.pinned)).insertionSort createdLE)
      = x :: D.reverse
    rw [hunp, insertionSort_eq_reverse createdLE (D ++ [x])
      (hpairs.imp (fun hab => by unfold createdLE; omega))]
    simp
  show ((D ++ [x]).filter _) = _
  rw [hrev]
  by_cases hfull : D.length < k
  · have hvic : (x :: D.reverse).drop k = [] :=
      List.drop_eq_nil_of_le (by simp; omega)
    rw [hvic]
    have hdrop : D.length + 1 - k = 0 := by omega
    rw [hdrop, List.drop_zero, List.filter_eq_self]
    intro r _
    simp
  · have hlen : D.length = k := by omega
    obtain ⟨d, D', hD⟩ : ∃ d D', D = d :: D' := by
      cases hDc : D with
      | nil => rw [hDc] at hlen; simp at hlen; omega
      | cons d D' => exact ⟨d, D', rfl⟩
    subst hD
    have hvic : (x :: (d :: D').reverse).drop k = [d] := by
      rw [List.reverse_cons]
      have hassoc : x :: (D'.reverse ++ [d]) = (x :: D'.reverse) ++ [d] := rfl
      rw [hassoc]
      refine List.drop_left' ?_
      simp only [List.length_cons, List.length_reverse]
      simp only [List.length_cons] at hlen
      omega
    rw [hvic]
    have hids' : d.entry.id ∉ ((D' ++ [x]).map (fun r => r.entry.id)) := by
      have hmapc : ((d :: D' ++ [x]).map (fun r => r.entry.id))
          = d.entry.id :: ((D' ++ [x]).map (fun r => r.entry.id)) := by simp
      rw [hmapc] at hidnodup
      exact (List.nodup_cons.mp hidnodup).1
    have hstep : (d :: D' ++ [x]).filter
        (fun r => !(([d] : List Row).map (fun r => r.entry.id)).contains r.entry.id)
        = D' ++ [x] := by
      rw [List.cons_append, List.filter_cons_of_neg (by simp)]
      rw [List.filter_eq_self]
      intro r hr
      have hrne : r.entry.id ≠ d.entry.id := by
        intro he
        exact hids' (by rw [← he]; exact List.mem_map_of_mem _ hr)
      simp [hrne]
    rw [List.cons_append] at hstep ⊢
    rw [hstep]
    simp only [List.length_cons]
    have hdrop1 : D'.length + 1 + 1 - k = 1 := by
      simp only [List.length_cons] at hlen
      omega
    rw [hdrop1]
    rfl

/-- Helper: one successful `add` against a store holding the newest
`maxEntries` of the rows planned so far prunes nothing (nothing planned
has expired by the new clock), inserts the new row, and caps back down:
the store then holds the newest `maxEntries` of the extended plan. -/
theorem add_step_cap (cfg : ManagerConfig) (pre : List AddStep) (st : AddStep)
    (s : Store) (hk : 1 ≤ cfg.maxEntries)
    (hval : validateCreateEntry st.input = true)
    (hids : ((pre.map AddStep.newId) ++ [st.newId]).Nodup)
    (htime : ∀ p ∈ pre, p.time ≤ st.time)
    (hptime : (pre.map AddStep.time).Pairwise (· ≤ ·))
    (hexp : ∀ p ∈ pre, st.time < p.time + (cfg.defaultTtlMinutes : Int) * 60 * 1000)
    (hnext : s.nextRowid = pre.length)
    (hrows : s.rows = (planRows cfg.defaultTtlMinutes 0 pre).drop
      (pre.length - cfg.maxEntries)) :
    (managerAddState cfg s st.input st.time st.newId).nextRowid =
      (pre ++ [st]).length ∧
    (managerAddState cfg s st.input st.time st.newId).rows =
      (planRows cfg.defaultTtlMinutes 0 (pre ++ [st])).drop
        ((pre ++ [st]).length - cfg.maxEntries) := by
  have hok : managerAdd cfg s st.input st.time st.newId =
      .ok ((((s.pruneExpired st.time).1.insert st.input cfg.defaultTtlMinutes
          st.time st.newId).1.enforceMaxEntries cfg.maxEntries).1,
        mkContextEntry st.input cfg.defaultTtlMinutes st.time st.newId) := by
    unfold managerAdd
    rw [hval]
    rfl
  have hstate : managerAddState cfg s st.input st.time st.newId =
      (((s.pruneExpired st.time).1.insert st.input cfg.defaultTtlMinutes st.time
          st.newId).1.enforceMaxEntries cfg.maxEntries).1 := by
    unfold managerAddState
    rw [hok]
  have hmem : ∀ r ∈ s.rows, ∃ q ∈ pre,
      r.entry = mkContextEntry q.input cfg.defaultTtlMinutes q.time q.newId ∧
      r.rowid < pre.length := by
    intro r hr
    rw [hrows] at hr
    obtain ⟨q, hq, he, _, h2⟩ :=
      mem_planRows cfg.defaultTtlMinutes 0 pre r (List.drop_subset _ _ hr)
    exact ⟨q, hq, he, by omega⟩
  have hprune : (s.pruneExpired st.time).1.rows = s.rows := by
    show s.rows.filter _ = s.rows
    rw [List.filter_eq_self]
    intro r hr
    obtain ⟨q, hq, he, _⟩ := hmem r hr
    rw [he]
    have hq2 := hexp q hq
    simp only [mkContextEntry, Bool.not_false, Bool.and_true, Bool.not_eq_true',
      decide_eq_false_iff_not, not_le]
    omega
  have hins : ((s.pruneExpired st.time).1.insert st.input cfg.defaultTtlMinutes
      st.time st.newId).1.rows = s.rows ++
      [Row.mk s.nextRowid
        (mkContextEntry st.input cfg.defaultTtlMinutes st.time st.newId)] := by
    show (s.pruneExpired st.time).1.rows ++
        [Row.mk s.nextRowid
          (mkContextEntry st.input cfg.defaultTtlMinutes st.time st.newId)] = _
    rw [hprune]
  have hPlen : (planRows cfg.defaultTtlMinutes 0 pre).length = pre.length :=
    planRows_length cfg.defaultTtlMinutes 0 pre
  have hDlen : s.rows.length = pre.length - (pre.length - cfg.maxEntries) := by
    rw [hrows, List.length_drop, hPlen]
  have hpairs : (s.rows ++ [Row.mk s.nextRowid
      (mkContextEntry st.input cfg.defaultTtlMinutes st.time st.newId)]).Pairwise
      (fun a b => a.rowid < b.rowid ∧ a.entry.createdAt ≤ b.entry.createdAt) := by
    rw [List.pairwise_append]
    refine ⟨?_, List.pairwise_singleton _ _, ?_⟩
    · rw [hrows]
      exact List.Pairwise.sublist (List.drop_sublist _ _)
        (planRows_pairwise cfg.defaultTtlMinutes 0 pre hptime)
    · intro a ha b hb
      simp only [List.mem_singleton] at hb
      subst hb
      obtain ⟨q, hq, he, hrid⟩ := hmem a ha
      constructor
      · show a.rowid < s.nextRowid
        omega
      · show a.entry.createdAt ≤ st.time
        rw [he]
        have : (mkContextEntry q.input cfg.defaultTtlMinutes q.time
            q.newId).createdAt = q.time := rfl
        rw [this]
        exact htime q hq
  have hunpin : ∀ r ∈ s.rows ++ [Row.mk s.nextRowid
      (mkContextEntry st.input cfg.defaultTtlMinutes st.time st.newId)],
      r.entry.pinned = false := by
    intro r hr
    rcases List.mem_append.mp hr with h | h
    · obtain ⟨q, _, he, _⟩ := hmem r h
      rw [he]
      rfl
    · simp only [List.mem_singleton] at h
      rw [h]
      rfl
  have hidnodup : ((s.rows ++ [Row.mk s.nextRowid
      (mkContextEntry st.input cfg.defaultTtlMinutes st.time
        st.newId)]).map (fun r => r.entry.id)).Nodup := by
    rw [List.map_append]
    have hrowids : s.rows.map (fun r => r.entry.id)
        = (pre.map AddStep.newId).drop (pre.length - cfg.maxEntries) := by
      rw [hrows, List.map_drop, planRows_ids]
    rw [hrowids]
    have hxid : List.map (fun r => r.entry.id)
        [Row.mk s.nextRowid
          (mkContextEntry st.input cfg.defaultTtlMinutes st.time st.newId)]
        = [st.newId] := rfl
    rw [hxid]
    have hsub : List.Sublist
        ((pre.map AddStep.newId).drop (pre.length - cfg.maxEntries) ++ [st.newId])
        ((pre.map AddStep.newId) ++ [st.newId]) :=
      List.Sublist.append_right (List.drop_sublist _ _) _
    exact List.Nodup.sublist hsub hids
  have henf := enforce_after_append 0 s.rows
    (Row.mk s.nextRowid
      (mkContextEntry st.input cfg.defaultTtlMinutes st.time st.newId))
    cfg.maxEntries hk (by omega) hpairs hunpin hidnodup
  constructor
  · rw [hstate]
    show s.nextRowid + 1 = (pre ++ [st]).length
    rw [hnext]
    simp
  · rw [hstate]
    rw [enforce_rows_eq_of_rows_eq _
      (Store.mk 0 (s.rows ++ [Row.mk s.nextRowid
        (mkContextEntry st.input cfg.defaultTtlMinutes st.time st.newId)]))
      cfg.maxEntries hins]
    rw [henf]
    rw [planRows_append cfg.defaultTtlMinutes 0 pre st]
    rw [hrows, hnext]
    have hx0 : (0 : Nat) + pre.length = pre.length := by omega
    rw [hx0]
    rw [List.length_drop, hPlen, List.length_append]
    simp only [List.length_cons, List.length_nil, Nat.zero_add]
    have h1 : (planRows cfg.defaultTtlMinutes 0 pre).length - (pre.length -
        cfg.maxEntries) = pre.length - (pre.length - cfg.maxEntries) := by
      rw [hPlen]
    have hle1 : pre.length - (pre.length - cfg.maxEntries) + 1 - cfg.maxEntries ≤
        ((planRows cfg.defaultTtlMinutes 0 pre).drop
          (pre.length - cfg.maxEntries)).length := by
      rw [List.length_drop, hPlen]
      omega
    rw [List.drop_append_of_le_length hle1]
    have hle2 : pre.length + (1 : Nat) - cfg.maxEntries ≤
        (planRows cfg.defaultTtlMinutes 0 pre).length := by
      rw [hPlen]
      omega
    rw [List.drop_append_of_le_length hle2]
    rw [List.drop_drop]
    congr 2
    omega

/-- Helper: running a batch of valid adds from a state holding the newest
cap-many planned rows ends holding the newest cap-many rows of the
extended plan. -/
theorem runAdds_cap (cfg : ManagerConfig) (hk : 1 ≤ cfg.maxEntries) :
    ∀ (rest pre : List AddStep) (s : Store),
      s.nextRowid = pre.length →
      s.rows = (planRows cfg.defaultTtlMinutes 0 pre).drop
        (pre.length - cfg.maxEntries) →
      (∀ st ∈ rest, validateCreateEntry st.input = true) →
      ((pre ++ rest).map AddStep.newId).Nodup →
      ((pre ++ rest).map AddStep.time).Pairwise (· ≤ ·) →
      (∀ p ∈ pre ++ rest, ∀ q ∈ pre ++ rest,
        q.time < p.time + (cfg.defaultTtlMinutes : Int) * 60 * 1000) →
      (runAdds cfg s rest).nextRowid = (pre ++ rest).length ∧
      (runAdds cfg s rest).rows =
        (planRows cfg.defaultTtlMinutes 0 (pre ++ rest)).drop
          ((pre ++ rest).length - cfg.maxEntries) := by
  intro rest
  induction rest with
  | nil =>
    intro pre s h1 h2 _ _ _ _
    simp only [List.append_nil]
    exact ⟨h1, h2⟩
  | cons st rest' ih =>
    intro pre s h1 h2 hval hids hptime hexp
    have hids2 := hids
    have hptime2 := hptime
    rw [show (pre ++ st :: rest').map AddStep.newId
        = pre.map AddStep.newId ++ (st.newId :: rest'.map AddStep.newId) by simp]
      at hids2
    rw [show (pre ++ st :: rest').map AddStep.time
        = pre.map AddStep.time ++ (st.time :: rest'.map AddStep.time) by simp]
      at hptime2
    have hpsplit := List.pairwise_append.mp hptime2
    have hids1 : ((pre.map AddStep.newId) ++ [st.newId]).Nodup := by
      refine List.Nodup.sublist ?_ hids2
      exact List.Sublist.append_left
        (List.cons_sublist_cons.mpr (List.nil_sublist _)) _
    have htime1 : ∀ p ∈ pre, p.time ≤ st.time := by
      intro p hp
      exact hpsplit.2.2 p.time (List.mem_map_of_mem AddStep.time hp) st.time
        (List.mem_cons_self _ _)
    have hexp1 : ∀ p ∈ pre,
        st.time < p.time + (cfg.defaultTtlMinutes : Int) * 60 * 1000 := by
      intro p hp
      exact hexp p (List.mem_append_left _ hp) st
        (List.mem_append_right _ (List.mem_cons_self _ _))
    have hstep := add_step_cap cfg pre st s hk
      (hval st (List.mem_cons_self st rest')) hids1 htime1 hpsplit.1 hexp1 h1 h2
    have hrun : runAdds cfg s (st :: rest')
        = runAdds cfg (managerAddState cfg s st.input st.time st.newId) rest' :=
      rfl
    rw [hrun]
    have happ : (pre ++ [st]) ++ rest' = pre ++ st :: rest' := by simp
    have hrec := ih (pre ++ [st])
      (managerAddState cfg s st.input st.time st.newId) hstep.1 hstep.2
      (fun q hq => hval q (List.mem_cons_of_mem st hq))
      (by rw [happ]; exact hids)
      (by rw [happ]; exact hptime)
      (by rw [happ]; exact hexp)
    rw [happ] at hrec
    exact hrec

/-- C3: for every positive cap `k` and every sequence of more than `k`
valid adds through the manager (fresh ids, non-decreasing clocks, no
entry expiring within the run), exactly `k` entries remain and they are
the `k` most-recently-inserted ones, as planned rows. -/
theorem cap_enforcement (cfg : ManagerConfig) (steps : List AddStep)
    (hk : 1 ≤ cfg.maxEntries) (hN : cfg.maxEntries < steps.length)
    (hval : ∀ st ∈ steps, validateCreateEntry st.input = true)
    (hids : (steps.map AddStep.newId).Nodup)
    (htime : (steps.map AddStep.time).Pairwise (· ≤ ·))
    (hexp : ∀ p ∈ steps, ∀ q ∈ steps,
      q.time < p.time + (cfg.defaultTtlMinutes : Int) * 60 * 1000) :
    (runAdds cfg Store.empty steps).count = cfg.maxEntries ∧
    (runAdds cfg Store.empty steps).rows =
      (planRows cfg.defaultTtlMinutes 0 steps).drop
        (steps.length - cfg.maxEntries) := by
  have h := runAdds_cap cfg hk steps [] Store.empty rfl
    (by simp [Store.empty, planRows]) hval (by simpa using hids)
    (by simpa using htime) (by simpa using hexp)
  rw [List.nil_append] at h
  refine ⟨?_, h.2⟩
  show (runAdds cfg Store.empty steps).rows.length = cfg.maxEntries
  rw [h.2, List.length_drop, planRows_length]
  omega

/-- Witness for C3: cap 2, three adds with increasing clocks; two rows
remain, the two most recent. -/
theorem cap_enforcement_witness :
    (runAdds cfg2 Store.empty threeSteps).count = 2 ∧
    (runAdds cfg2 Store.empty threeSteps).rows =
      (planRows 120 0 threeSteps).drop 1 :=
  cap_enforcement cfg2 threeSteps (by decide) (by decide) (by decide)
    (by decide) (by decide) (by decide)

/-- Witness for C2: adding a valid input to the empty store and reading
the returned id back yields the returned entry. -/
theorem add_then_getById_witness :
    managerAdd cfg20 Store.empty sampleInput 1000 "id-1" =
      .ok (managerAddState cfg20 Store.empty sampleInput 1000 "id-1",
        mkContextEntry sampleInput 120 1000 "id-1") ∧
    (managerAddState cfg20 Store.empty sampleInput 1000 "id-1").getById "id-1" =
      some (mkContextEntry sampleInput 120 1000 "id-1") :=
  add_then_getById cfg20 Store.empty sampleInput 1000 "id-1" (by decide)
    (by decide) (by simp [Store.empty]) (by simp [Store.empty])
    (by simp [Store.empty])

/-- Witness for C7 at the spec's sample offsets (30 seconds, 5 minutes,
3 hours, 2 days). -/
theorem formatRelativeTime_floor_spec_witness :
    formatRelativeTime 0 30000 = "just now" ∧
    formatRelativeTime 0 300000 = "5m ago" ∧
    formatRelativeTime 0 10800000 = "3h ago" ∧
    formatRelativeTime 0 172800000 = "2d ago" := by
  refine ⟨(formatRelativeTime_floor_spec 0 30000).1 (by decide), ?_, ?_, ?_⟩
  · rw [(formatRelativeTime_floor_spec 0 300000).2.1 (by decide) (by decide)]
    decide
  · rw [(formatRelativeTime_floor_spec 0 10800000).2.2.1 (by decide) (by decide)]
    decide
  · rw [(formatRelativeTime_floor_spec 0 172800000).2.2.2 (by decide)]
    decide
